import Mathlib

/-!
Verification development for the generation/streaming core of an AI diagram
application (Cloudflare Pages + edge functions).  The definitions below are a
shallow embedding of the TypeScript source: strings are lists of characters,
the JSON values handled by `JSON.parse` / `JSON.stringify` are modelled by an
executable `Json` type (numbers are modelled as integers; frames containing
fractional numbers are outside the scope of every claim), and the external
collaborators (the LLM service composed with `extractCode`, and the Mermaid
validator `validateContent`) are modelled as oracle functions indexed by the
call number, since the claims quantify over their behaviour.
-/

namespace Spec2

/-- Strings are modelled as lists of characters (JS strings, up to UTF-16
encoding details that no claim depends on). -/
abbrev Str := List Char

/-- Coerce a Lean string literal to the character-list model. -/
def chars (s : String) : Str := s.data

/-- Character class of `String.prototype.trim` (JS WhiteSpace and
LineTerminator characters). -/
def isJsWhitespace (c : Char) : Bool :=
  c.toNat = 9 || c.toNat = 10 || c.toNat = 11 || c.toNat = 12 || c.toNat = 13 ||
  c.toNat = 32 || c.toNat = 160 || c.toNat = 0x1680 ||
  (0x2000 ≤ c.toNat && c.toNat ≤ 0x200A) ||
  c.toNat = 0x2028 || c.toNat = 0x2029 || c.toNat = 0x202F ||
  c.toNat = 0x205F || c.toNat = 0x3000 || c.toNat = 0xFEFF

/-- Embeds `line.trim()`. -/
def jsTrim (s : Str) : Str :=
  ((s.dropWhile isJsWhitespace).reverse.dropWhile isJsWhitespace).reverse

/-- Helper for `splitLines`: a non-newline character extends the first
completed line when one exists, otherwise the carry-over fragment. -/
def consHead (c : Char) : List Str × Str → List Str × Str
  | ([], buf) => ([], c :: buf)
  | (l :: ls, buf) => ((c :: l) :: ls, buf)

/-- Embeds the decode-buffer bookkeeping of the stream transcoders
(`stream-openai.ts` / `stream-anthropic.ts` lines 48–50):
`buffer.split('\n')` followed by `buffer = lines.pop() || ''`.
Returns the fully terminated lines and the trailing fragment. -/
def splitLines : Str → (List Str × Str)
  | [] => ([], [])
  | c :: cs =>
    if c = '\n' then ([] :: (splitLines cs).1, (splitLines cs).2)
    else consHead c (splitLines cs)

/-- The fully terminated lines of a byte sequence: what the transcoder
processes once the whole sequence has been fed (the trailing fragment after
the last newline is never processed). -/
def completedLines (s : Str) : List Str := (splitLines s).1

/-- Process a batch of fully terminated lines with a per-line processor,
concatenating the canonical events each line produces (the inner `for` loop
of the transcoders). -/
def feedLines (pl : Str → List Str) (lines : List Str) : List Str :=
  (lines.map pl).flatten

/-- The transcoder read loop (`while (true) { ... reader.read() ... }`):
each network chunk is appended to the carry-over buffer, the buffer is split
on newlines, the trailing fragment becomes the new buffer, and every fully
terminated line is processed.  On `done` the loop exits and the remaining
buffer is discarded. -/
def runChunks (pl : Str → List Str) : Str → List Str → List Str
  | _, [] => []
  | buf, chunk :: rest =>
    let p := splitLines (buf ++ chunk)
    feedLines pl p.1 ++ runChunks pl p.2 rest

/-- Canonical output of the stream transcoder on a partitioned upstream byte
stream: list of SSE events written to the output side, in order. -/
def transcode (pl : Str → List Str) (chunks : List Str) : List Str :=
  runChunks pl [] chunks

/-! ### JSON model (`JSON.parse` / `JSON.stringify`) -/

/-- JSON values as produced by `JSON.parse`.  Numbers are modelled as
integers: the parser below rejects fractional/exponent numerals, which no
claim exercises. -/
inductive Json where
  | null : Json
  | bool (b : Bool) : Json
  | num (n : Int) : Json
  | str (s : Str) : Json
  | arr (xs : List Json) : Json
  | obj (kvs : List (Str × Json)) : Json

/-- JSON insignificant whitespace. -/
def skipWs (s : Str) : Str :=
  s.dropWhile (fun c => c = ' ' || c = '\t' || c = '\n' || c = '\r')

/-- Strip a literal off the front of a string, or fail. -/
def stripLit : Str → Str → Option Str
  | [], s => some s
  | _ :: _, [] => none
  | c :: p, d :: s => if c = d then stripLit p s else none

/-- Value of a hexadecimal digit. -/
def hexVal (c : Char) : Option Nat :=
  if '0' ≤ c ∧ c ≤ '9' then some (c.toNat - 48)
  else if 'a' ≤ c ∧ c ≤ 'f' then some (c.toNat - 87)
  else if 'A' ≤ c ∧ c ≤ 'F' then some (c.toNat - 70)
  else none

/-- Decode a single-character JSON string escape. -/
def decodeEsc (c : Char) : Option Char :=
  if c = '"' then some '"'
  else if c = '\\' then some '\\'
  else if c = '/' then some '/'
  else if c = 'b' then some (Char.ofNat 8)
  else if c = 'f' then some (Char.ofNat 12)
  else if c = 'n' then some '\n'
  else if c = 'r' then some '\r'
  else if c = 't' then some '\t'
  else none

/-- Parse the body of a JSON string (after the opening quote), returning the
decoded content and the remainder after the closing quote.  Lone-surrogate
`\u` escapes (not representable as scalar values) are rejected. -/
def parseStringBody : Str → Option (Str × Str)
  | [] => none
  | '"' :: rest => some ([], rest)
  | '\\' :: 'u' :: h1 :: h2 :: h3 :: h4 :: rest => do
    let a ← hexVal h1
    let b ← hexVal h2
    let c ← hexVal h3
    let d ← hexVal h4
    let n := ((a * 16 + b) * 16 + c) * 16 + d
    if n < 0xD800 ∨ (0xDFFF < n ∧ n < 0x110000) then
      let p ← parseStringBody rest
      some (Char.ofNat n :: p.1, p.2)
    else none
  | '\\' :: e :: rest => do
    let c ← decodeEsc e
    let p ← parseStringBody rest
    some (c :: p.1, p.2)
  | c :: rest =>
    if c.toNat < 32 then none
    else (parseStringBody rest).map (fun p => (c :: p.1, p.2))

/-- Parse a JSON integer numeral (rejecting fractional and exponent parts,
which the `Json` model does not represent). -/
def parseNum (s : Str) : Option (Json × Str) :=
  let sign : Bool × Str := match s with
    | '-' :: r => (true, r)
    | _ => (false, s)
  let digs := sign.2.takeWhile Char.isDigit
  let rest := sign.2.drop digs.length
  if digs = [] then none
  else if 1 < digs.length ∧ digs.headD '0' = '0' then none
  else
    let bad : Bool := match rest with
      | c :: _ => c = '.' || c = 'e' || c = 'E'
      | [] => false
    if bad then none
    else
      let n : Nat := digs.foldl (fun a c => a * 10 + (c.toNat - 48)) 0
      some (Json.num (if sign.1 then -(n : Int) else (n : Int)), rest)

mutual

/-- Fuel-indexed recursive-descent parser for a JSON value, following the
grammar accepted by `JSON.parse`. -/
def parseValue : Nat → Str → Option (Json × Str)
  | 0, _ => none
  | fuel + 1, s =>
    match skipWs s with
    | [] => none
    | c :: r =>
      if c = 'n' then (stripLit (chars ("ull")) r).map (fun rest => (Json.null, rest))
      else if c = 't' then (stripLit (chars ("rue")) r).map (fun rest => (Json.bool true, rest))
      else if c = 'f' then (stripLit (chars ("alse")) r).map (fun rest => (Json.bool false, rest))
      else if c = '"' then (parseStringBody r).map (fun p => (Json.str p.1, p.2))
      else if c = '[' then
        match skipWs r with
        | ']' :: rest => some (Json.arr [], rest)
        | _ => (parseElems fuel r).map (fun p => (Json.arr p.1, p.2))
      else if c = '\x7b' then
        match skipWs r with
        | '\x7d' :: rest => some (Json.obj [], rest)
        | _ => (parseMembers fuel r).map (fun p => (Json.obj p.1, p.2))
      else parseNum (c :: r)

/-- Comma-separated array elements, up to and including the closing
bracket. -/
def parseElems : Nat → Str → Option (List Json × Str)
  | 0, _ => none
  | fuel + 1, s => do
    let p ← parseValue fuel s
    match skipWs p.2 with
    | ',' :: r => (parseElems fuel r).map (fun q => (p.1 :: q.1, q.2))
    | ']' :: r => some ([p.1], r)
    | _ => none

/-- Comma-separated object members, up to and including the closing
brace. -/
def parseMembers : Nat → Str → Option (List (Str × Json) × Str)
  | 0, _ => none
  | fuel + 1, s =>
    match skipWs s with
    | '"' :: r => do
      let k ← parseStringBody r
      match skipWs k.2 with
      | ':' :: r2 => do
        let v ← parseValue fuel r2
        match skipWs v.2 with
        | ',' :: r3 => (parseMembers fuel r3).map (fun q => ((k.1, v.1) :: q.1, q.2))
        | '\x7d' :: r3 => some ([(k.1, v.1)], r3)
        | _ => none
      | _ => none
    | _ => none

end

/-- Embeds `JSON.parse(data)`: parse one value and require only whitespace to
remain.  Returns `none` where `JSON.parse` would throw. -/
def parseJson (s : Str) : Option Json :=
  match parseValue (2 * s.length + 4) s with
  | some (v, rest) => if skipWs rest = [] then some v else none
  | none => none

/-- Property access `o[k]` on a parsed JSON value (`undefined`, i.e. `none`,
on non-objects and missing keys; duplicate keys resolve to the last
occurrence, as in `JSON.parse`). -/
def jLookup (j : Json) (k : Str) : Option Json :=
  match j with
  | .obj kvs => kvs.foldl (fun acc p => if p.1 = k then some p.2 else acc) none
  | _ => none

/-- Index access `o?.[0]` as used on `parsed.choices`: element 0 of an
array, property `"0"` of an object, first character of a string. -/
def jIndex0 (j : Json) : Option Json :=
  match j with
  | .arr (x :: _) => some x
  | .obj kvs => jLookup (.obj kvs) (chars ("0"))
  | .str (c :: _) => some (.str [c])
  | _ => none

/-- JS truthiness of a JSON value (`if (content)`): `null`, `false`, `0` and
`""` are falsy; arrays and objects are truthy. -/
def jsTruthy (j : Json) : Bool :=
  match j with
  | .null => false
  | .bool b => b
  | .num n => !(n == 0)
  | .str s => !s.isEmpty
  | .arr _ => true
  | .obj _ => true

/-- Lower-case hexadecimal digit, for `JSON.stringify` control-character
escapes. -/
def hexChar (n : Nat) : Char :=
  if n < 10 then Char.ofNat (48 + n) else Char.ofNat (87 + n)

/-- `JSON.stringify` escaping of one character inside a string literal. -/
def escapeChar (c : Char) : Str :=
  if c = '"' then ['\\', '"']
  else if c = '\\' then ['\\', '\\']
  else if c.toNat = 8 then ['\\', 'b']
  else if c.toNat = 9 then ['\\', 't']
  else if c = '\n' then ['\\', 'n']
  else if c.toNat = 12 then ['\\', 'f']
  else if c = '\r' then ['\\', 'r']
  else if c.toNat < 32 then
    ['\\', 'u', '0', '0', hexChar (c.toNat / 16), hexChar (c.toNat % 16)]
  else [c]

/-- `JSON.stringify` escaping of a string body. -/
def escapeStr (s : Str) : Str := (s.map escapeChar).flatten

mutual

/-- Embeds `JSON.stringify` on the `Json` model (no spacing, object keys in
insertion order). -/
def stringifyJson : Json → Str
  | .null => chars ("null")
  | .bool true => chars ("true")
  | .bool false => chars ("false")
  | .num n => chars (toString n)
  | .str s => '"' :: (escapeStr s ++ ['"'])
  | .arr xs => '[' :: (stringifyElems xs ++ [']'])
  | .obj kvs => '\x7b' :: (stringifyKvs kvs ++ ['\x7d'])

/-- Comma-separated stringified array elements. -/
def stringifyElems : List Json → Str
  | [] => []
  | [x] => stringifyJson x
  | x :: y :: xs => stringifyJson x ++ ',' :: stringifyElems (y :: xs)

/-- Comma-separated stringified object members. -/
def stringifyKvs : List (Str × Json) → Str
  | [] => []
  | [(k, v)] => '"' :: (escapeStr k ++ '"' :: ':' :: stringifyJson v)
  | (k, v) :: m :: kvs =>
    ('"' :: (escapeStr k ++ '"' :: ':' :: stringifyJson v)) ++ ',' :: stringifyKvs (m :: kvs)

end

/-! ### The canonical SSE events and the per-line transcoder step -/

/-- The stream-end sentinel forwarded verbatim:
`data: [DONE]\n\n`. -/
def doneEvent : Str := chars ("data: [DONE]\n\n")

/-- A canonical delta event: `` `data: ${JSON.stringify({ content })}\n\n` ``. -/
def deltaEvent (v : Json) : Str :=
  chars ("data: ") ++ stringifyJson (.obj [(chars ("content"), v)]) ++ chars ("\n\n")

/-- Embeds lines 52–71 of `stream-openai.ts` (identical shape in
`stream-anthropic.ts`): trim the line, ignore it unless it starts with
`data: `, forward `[DONE]` verbatim, otherwise `JSON.parse` the payload
(silently skipping malformed JSON), extract the provider-specific delta and
emit one canonical event when the delta is truthy. -/
def processLine (extract : Json → Option Json) (line : Str) : List Str :=
  let trimmed := jsTrim line
  if trimmed.isEmpty then []
  else if !((chars ("data: ")).isPrefixOf trimmed) then []
  else
    let data := trimmed.drop 6
    if data = chars ("[DONE]") then [doneEvent]
    else
      match parseJson data with
      | none => []
      | some parsed =>
        match extract parsed with
        | some v => if jsTruthy v then [deltaEvent v] else []
        | none => []

/-- OpenAI delta extraction: `parsed.choices?.[0]?.delta?.content`. -/
def openAIDelta (parsed : Json) : Option Json := do
  let c ← jLookup parsed (chars ("choices"))
  let first ← jIndex0 c
  let d ← jLookup first (chars ("delta"))
  jLookup d (chars ("content"))

/-- Strict string equality test `x === s` on an optionally present JSON
value. -/
def jIsStr (o : Option Json) (s : Str) : Bool :=
  match o with
  | some (.str t) => t = s
  | _ => false

/-- Anthropic delta extraction:
`parsed.type === 'content_block_delta'` guards `parsed.delta?.text`. -/
def anthropicDelta (parsed : Json) : Option Json :=
  if jIsStr (jLookup parsed (chars ("type"))) (chars ("content_block_delta")) then do
    let d ← jLookup parsed (chars ("delta"))
    jLookup d (chars ("text"))
  else none

/-- The guarded `data: ` payload of a line, when the line passes the trim
and prefix checks of the transcoder. -/
def lineData (line : Str) : Option Str :=
  let trimmed := jsTrim line
  if trimmed.isEmpty then none
  else if !((chars ("data: ")).isPrefixOf trimmed) then none
  else some (trimmed.drop 6)

/-- Whether a line is the `data: [DONE]` sentinel line. -/
def isDoneLine (line : Str) : Bool :=
  lineData line = some (chars ("[DONE]"))

/-- The delta a line's well-formed JSON payload carries, before the
truthiness filter (specification mirror of `processLine`). -/
def lineContent (extract : Json → Option Json) (line : Str) : Option Json :=
  match lineData line with
  | some d =>
    if d = chars ("[DONE]") then none
    else match parseJson d with
      | some parsed => extract parsed
      | none => none
  | none => none

/-- The delta a line actually emits (truthy deltas only). -/
def lineDelta (extract : Json → Option Json) (line : Str) : Option Json :=
  match lineContent extract line with
  | some v => if jsTruthy v then some v else none
  | none => none

/-! ### Environment resolution and quota exemption -/

/-- JS truthiness of an optionally present string (absent, `null` and `""`
are falsy). -/
def truthyS (o : Option Str) : Bool :=
  match o with
  | some s => !s.isEmpty
  | none => false

/-- `x || d` on an optionally present string field. -/
def strOr (o : Option Str) (d : Str) : Str :=
  if truthyS o then o.getD [] else d

/-- The resolved environment (`EffectiveEnv` in `ai-providers.ts`). -/
structure EffectiveEnv where
  AI_PROVIDER : Str
  AI_BASE_URL : Str
  AI_API_KEY : Str
  AI_MODEL_ID : Str
deriving DecidableEq

/-- The client LLM override (`LLMConfig`).  Fields are optional at runtime;
the source guards each with JS truthiness. -/
structure LLMConfig where
  provider : Option Str
  baseUrl : Option Str
  apiKey : Option Str
  modelId : Option Str
deriving DecidableEq

/-- Embeds `createEffectiveEnv` (`ai-providers.ts`).  The server defaults
produced by `getEnv()` are passed explicitly as `env`. -/
def createEffectiveEnv (env : EffectiveEnv) (llmConfig : Option LLMConfig) : EffectiveEnv :=
  match llmConfig with
  | none => env
  | some cfg =>
    if !truthyS cfg.apiKey then env
    else
      { AI_PROVIDER := strOr cfg.provider env.AI_PROVIDER
        AI_BASE_URL := strOr cfg.baseUrl env.AI_BASE_URL
        AI_API_KEY := cfg.apiKey.getD []
        AI_MODEL_ID := strOr cfg.modelId env.AI_MODEL_ID }

/-- Result of `validateAccessPassword` (`auth.ts`). -/
structure AuthResult where
  valid : Bool
  exempt : Bool
deriving DecidableEq

/-- Embeds `validateAccessPassword` (`functions/api/_shared/auth.ts`):
`password` is the `X-Access-Password` header, `cfgPassword` is
`env.ACCESS_PASSWORD`. -/
def validateAccessPassword (password cfgPassword : Option Str) : AuthResult :=
  if !truthyS cfgPassword then ⟨true, false⟩
  else if truthyS password then
    if password = cfgPassword then ⟨true, true⟩ else ⟨false, false⟩
  else ⟨true, false⟩

/-- `!!(llmConfig && llmConfig.apiKey)` (`api/chat.ts` line 44). -/
def hasCustomLLM (llmConfig : Option LLMConfig) : Bool :=
  match llmConfig with
  | some cfg => truthyS cfg.apiKey
  | none => false

/-- `exempt || hasCustomLLM` (`api/chat.ts` line 45). -/
def effectiveExempt (auth : AuthResult) (llmConfig : Option LLMConfig) : Bool :=
  auth.exempt || hasCustomLLM llmConfig

/-- The `X-Quota-Exempt` header value attached to every successful chat
response (both the JSON path and the two streaming paths). -/
def quotaExemptValue (b : Bool) : Str :=
  if b then chars ("true") else chars ("false")

/-- The quota-exemption boolean surfaced at the response boundary of the
chat handler: `none` when the handler rejects the request with 401 (no
`X-Quota-Exempt` header is attached), otherwise the header value. -/
def chatQuotaHeader (password cfgPassword : Option Str) (llmConfig : Option LLMConfig) :
    Option Str :=
  let auth := validateAccessPassword password cfgPassword
  if auth.valid then some (quotaExemptValue (effectiveExempt auth llmConfig))
  else none

/-! ### Content-part conversion for the Anthropic adapter -/

/-- OpenAI-style content part (`ContentPart` in `types.ts`); `ptype` is the
runtime value of the `type` tag, `image_url` carries the nested `url`. -/
structure ContentPart where
  ptype : Str
  text : Option Str
  image_url : Option Str

/-- Anthropic-side content part: the source only ever constructs a text part
or a base64 image part. -/
inductive AnthropicContentPart where
  | text (t : Str) : AnthropicContentPart
  | image (mediaType : Str) (dat : Str) : AnthropicContentPart
deriving DecidableEq

/-- JS `.` (dot) in a regex: any character except a line terminator. -/
def isLineTerm (c : Char) : Bool :=
  c = '\n' || c = '\r' || c.toNat = 0x2028 || c.toNat = 0x2029

/-- Embeds `url.match(/^data:(image\/[^;]+);base64,(.+)$/)`: on success
returns the captured `(media_type, payload)`. -/
def dataImageMatch (url : Str) : Option (Str × Str) := do
  let rest ← stripLit (chars ("data:image/")) url
  let sub := rest.takeWhile (fun c => !(c = ';'))
  if sub.isEmpty then none
  else
    let payload ← stripLit (chars (";base64,")) (rest.drop sub.length)
    if payload.isEmpty then none
    else if payload.any isLineTerm then none
    else some (chars ("image/") ++ sub, payload)

/-- The per-part mapping step of `convertContentPartsToAnthropic`
(`ai-providers.ts` lines 124–146). -/
def convertOnePart (p : ContentPart) : AnthropicContentPart :=
  if p.ptype = chars ("text") then .text (p.text.getD [])
  else if p.ptype = chars ("image_url") ∧ truthyS p.image_url then
    let url := p.image_url.getD []
    if (chars ("data:")).isPrefixOf url then
      match dataImageMatch url with
      | some m => .image m.1 m.2
      | none => .text (chars ("[Image URL: ") ++ url ++ chars ("]"))
    else .text (chars ("[Image URL: ") ++ url ++ chars ("]"))
  else .text []

/-- The retention filter of `convertContentPartsToAnthropic` (line 147):
`part.type === 'image' || (part.type === 'text' && part.text)`. -/
def keepPart (p : AnthropicContentPart) : Bool :=
  match p with
  | .image _ _ => true
  | .text t => !t.isEmpty

/-- Embeds `convertContentPartsToAnthropic`. -/
def convertContentPartsToAnthropic (parts : List ContentPart) : List AnthropicContentPart :=
  (parts.map convertOnePart).filter keepPart

/-! ### Anthropic request shaping (system split) -/

/-- Content of a canonical message: a plain string or an ordered content-part
array. -/
inductive MsgContent where
  | str (s : Str) : MsgContent
  | parts (ps : List ContentPart) : MsgContent

/-- A canonical chat message. -/
structure PayloadMessage where
  role : Str
  content : MsgContent

/-- Content of a shaped Anthropic message. -/
inductive AnthropicContent where
  | str (s : Str) : AnthropicContent
  | parts (ps : List AnthropicContentPart) : AnthropicContent

/-- `messages.find((m) => m.role === 'system')`. -/
def findSystem (messages : List PayloadMessage) : Option PayloadMessage :=
  messages.find? (fun m => m.role = chars ("system"))

/-- `messages.filter((m) => m.role !== 'system')`. -/
def nonSystemMessages (messages : List PayloadMessage) : List PayloadMessage :=
  messages.filter (fun m => !(m.role = chars ("system")))

/-- The top-level `system` string of the Anthropic request body:
`typeof systemMessage?.content === 'string' ? systemMessage.content : ''`. -/
def anthropicSystemOf (messages : List PayloadMessage) : Str :=
  match findSystem messages with
  | some m =>
    match m.content with
    | .str s => s
    | .parts _ => []
  | none => []

/-- Per-message conversion for the Anthropic `messages` array: role kept,
string content kept, content-part arrays converted. -/
def toAnthropicMessage (m : PayloadMessage) : Str × AnthropicContent :=
  (m.role,
    match m.content with
    | .str s => .str s
    | .parts ps => .parts (convertContentPartsToAnthropic ps))

/-- The `messages` array of the Anthropic request body
(`callAnthropic` / `streamAnthropic`). -/
def anthropicMessagesOf (messages : List PayloadMessage) : List (Str × AnthropicContent) :=
  (nonSystemMessages messages).map toAnthropicMessage

/-! ### The Mermaid self-heal loop -/

/-- Result of the external validator `validateContent`. -/
structure VResult where
  valid : Bool
  error : Option Str

/-- `x || 'Unknown error'` on the validator's optional error message. -/
def errOr (o : Option Str) : Str :=
  if truthyS o then o.getD [] else chars ("Unknown error")

/-- Record of one self-heal attempt: its 1-based index, the fix prompt sent
to the model, the extracted fixed code, and that attempt's validation. -/
structure FixAttempt where
  idx : Nat
  prompt : Str
  code : Str
  res : VResult

/-- `MAX_MERMAID_FIX_ATTEMPTS`. -/
def MAX_MERMAID_FIX_ATTEMPTS : Nat := 3

/-- The fix-prompt template literal of `attemptMermaidAutoFix`, embedding the
current validator error and the current invalid code. -/
def fixPromptOf (currentError currentCode : Str) : Str :=
  chars ("请修复下面 Mermaid 代码中的错误，只返回修复后的代码。\n      报错：\"\"\"") ++
    currentError ++ chars ("\"\"\"\n      当前代码：\"\"\"") ++ currentCode ++ chars ("\"\"\"")

/-- The `while (attempts < MAX_MERMAID_FIX_ATTEMPTS)` loop of
`attemptMermaidAutoFix`, with the two external collaborators as oracles
indexed by the attempt number: `ai n msgs` is the extracted model response
(`extractCode` composed with `aiService.streamChat`/`chat`) to `msgs` on
attempt `n`, and `validate n code` is the validator's report on that
attempt.  Returns the loop's result and the list of performed attempts. -/
def autoFixLoop (ai : Nat → List PayloadMessage → Str) (validate : Nat → Str → VResult)
    (systemPrompt : Str) : Nat → Nat → Str → Str → Str × List FixAttempt
  | 0, _, currentCode, _ => (currentCode, [])
  | fuel + 1, attempts, currentCode, currentError =>
    let attempt := attempts + 1
    let prompt := fixPromptOf currentError currentCode
    let messages : List PayloadMessage :=
      [⟨chars ("system"), .str systemPrompt⟩, ⟨chars ("user"), .str prompt⟩]
    let fixedCode := ai attempt messages
    let validation := validate attempt fixedCode
    if validation.valid then (fixedCode, [⟨attempt, prompt, fixedCode, validation⟩])
    else
      let next := autoFixLoop ai validate systemPrompt fuel attempt fixedCode (errOr validation.error)
      (next.1, ⟨attempt, prompt, fixedCode, validation⟩ :: next.2)

/-- Embeds `attemptMermaidAutoFix` (`useAIGenerate.ts` lines 415–473),
instrumented with the list of performed attempts. -/
def attemptMermaidAutoFix (ai : Nat → List PayloadMessage → Str)
    (validate : Nat → Str → VResult) (systemPrompt failedCode errorMessage : Str) :
    Str × List FixAttempt :=
  autoFixLoop ai validate systemPrompt MAX_MERMAID_FIX_ATTEMPTS 0 failedCode errorMessage

/-- The terminal error message
`` `Invalid ${engineType} output: ${validation.error}` `` (an absent error
prints as `undefined`, as in JS template interpolation). -/
def invalidMsg (engineType : Str) (error : Option Str) : Str :=
  chars ("Invalid ") ++ engineType ++ chars (" output: ") ++ error.getD (chars ("undefined"))

/-- Embeds the validation / auto-fix phase of `generate` (`useAIGenerate.ts`
lines 173–196): initial validation (oracle call 0), the Mermaid-only
self-heal loop (oracle calls 1..k), re-validation of the loop's result
(oracle call k+1), and the terminal error on residual invalidity.  Returns
the outcome together with the performed fix attempts. -/
def generateValidationPhase (ai : Nat → List PayloadMessage → Str)
    (validate : Nat → Str → VResult) (systemPrompt engineType finalCode : Str) :
    Except Str Str × List FixAttempt :=
  let validation := validate 0 finalCode
  if !validation.valid ∧ engineType = chars ("mermaid") then
    let fx := attemptMermaidAutoFix ai validate systemPrompt finalCode (errOr validation.error)
    let revalidation := validate (fx.2.length + 1) fx.1
    if revalidation.valid then (.ok fx.1, fx.2)
    else (.error (invalidMsg engineType revalidation.error), fx.2)
  else
    if validation.valid then (.ok finalCode, [])
    else (.error (invalidMsg engineType validation.error), [])

/-- Specification predicate for the self-heal loop's prompts: the first
attempt's fix prompt embeds the initial error and invalid code, and each
following attempt's fix prompt embeds the previous attempt's validator
error (with the `Unknown error` fallback) and previous attempt's code. -/
def promptChain : Str → Str → List FixAttempt → Prop
  | _, _, [] => True
  | err, code, r :: rest =>
    r.prompt = fixPromptOf err code ∧ promptChain (errOr r.res.error) r.code rest

/-! ### Concrete streams used by the claims -/

/-- The spec's three-frame OpenAI example byte sequence. -/
def exampleStream : Str :=
  chars ("data: \x7b\"choices\":[\x7b\"delta\":\x7b\"content\":\"ab\"\x7d\x7d]\x7d\n\ndata: \x7b\"choices\":[\x7b\"delta\":\x7b\"content\":\"cd\"\x7d\x7d]\x7d\n\ndata: [DONE]\n\n")

/-- Canonical event for the delta `ab`. -/
def eventAB : Str := chars ("data: \x7b\"content\":\"ab\"\x7d\n\n")

/-- Canonical event for the delta `cd`. -/
def eventCD : Str := chars ("data: \x7b\"content\":\"cd\"\x7d\n\n")

/-- An upstream sequence whose `[DONE]` frame is followed by a further
delta frame. -/
def doneThenDeltaStream : Str :=
  chars ("data: [DONE]\n\ndata: \x7b\"choices\":[\x7b\"delta\":\x7b\"content\":\"x\"\x7d\x7d]\x7d\n\n")

/-- An upstream sequence with a malformed JSON frame between two valid
frames. -/
def malformedMidStream : Str :=
  chars ("data: \x7b\"choices\":[\x7b\"delta\":\x7b\"content\":\"ab\"\x7d\x7d]\x7d\ndata: \x7bnot json\ndata: \x7b\"choices\":[\x7b\"delta\":\x7b\"content\":\"cd\"\x7d\x7d]\x7d\n\n")

/-- An upstream frame whose delta `content` is the JSON number `5`. -/
def numericContentStream : Str :=
  chars ("data: \x7b\"choices\":[\x7b\"delta\":\x7b\"content\":5\x7d\x7d]\x7d\n\n")

/-- The canonical event the transcoder emits for a numeric delta `5`. -/
def numericContentEvent : Str := chars ("data: \x7b\"content\":5\x7d\n\n")

/-! ### Concrete instances used by witnesses -/

/-- A concrete server-default environment. -/
def serverEnvEx : EffectiveEnv :=
  ⟨chars ("openai"), chars ("https://api.openai.com/v1"), chars ("SK"),
   chars ("gpt-4o-mini")⟩

/-- A client override carrying an API key and a present-but-empty
`provider`. -/
def emptyProviderOverride : LLMConfig :=
  ⟨some [], none, some (chars ("k")), none⟩

/-- A concrete fix-AI oracle: attempt `n` answers with `code` followed by
the digit of `n`. -/
def aiFixW : Nat → List PayloadMessage → Str :=
  fun n _ => chars ("code") ++ [Char.ofNat (48 + n)]

/-- A concrete validator oracle that reports valid exactly on its second
call. -/
def validAtTwo : Nat → Str → VResult :=
  fun n _ => ⟨n == 2, some (chars ("parse error"))⟩

/-- A concrete validator oracle that always reports invalid. -/
def neverValid : Nat → Str → VResult :=
  fun _ _ => ⟨false, some (chars ("parse error"))⟩

/-! ## Supporting lemmas -/

/-- Feeding lines is compositional. -/
theorem feedLines_append (pl : Str → List Str) (l1 l2 : List Str) :
    feedLines pl (l1 ++ l2) = feedLines pl l1 ++ feedLines pl l2 := by
  simp [feedLines]

/-- Splitting a concatenation: the completed lines of `a` come first, the
carry-over of `a` glues onto `b`. -/
theorem splitLines_append (a b : Str) :
    splitLines (a ++ b) =
      ((splitLines a).1 ++ (splitLines ((splitLines a).2 ++ b)).1,
       (splitLines ((splitLines a).2 ++ b)).2) := by
  induction a with
  | nil => simp [splitLines]
  | cons c cs ih =>
    by_cases hc : c = '\n'
    · subst hc
      simp [splitLines, ih]
    · rcases hA : splitLines cs with ⟨A1, A2⟩
      rw [hA] at ih
      rcases A1 with _ | ⟨l, ls⟩
      · rcases hX : splitLines (A2 ++ b) with ⟨X1, X2⟩
        rw [hX] at ih
        simp only [List.nil_append] at ih
        rcases X1 with _ | ⟨x, xs⟩
        · simp [splitLines, hc, ih, hA, consHead, hX]
        · simp [splitLines, hc, ih, hA, consHead, hX]
      · simp [splitLines, hc, ih, hA, consHead]

/-- Two adjacent network reads produce the same canonical output as the
single read of their concatenation. -/
theorem runChunks_merge (pl : Str → List Str) (buf c1 c2 : Str) (rest : List Str) :
    runChunks pl buf (c1 :: c2 :: rest) = runChunks pl buf ((c1 ++ c2) :: rest) := by
  simp only [runChunks]
  conv_rhs => rw [← List.append_assoc buf c1 c2]
  rw [splitLines_append (buf ++ c1) c2, feedLines_append, List.append_assoc]

/-- Prepending a chunk is the same as prepending it to the concatenation of
the remaining chunks. -/
theorem transcode_cons_join (pl : Str → List Str) (rest : List Str) (c : Str) :
    transcode pl (c :: rest) = transcode pl [c ++ rest.flatten] := by
  induction rest generalizing c with
  | nil => simp
  | cons c2 rest' ih =>
    calc transcode pl (c :: c2 :: rest')
        = transcode pl ((c ++ c2) :: rest') := runChunks_merge pl [] c c2 rest'
      _ = transcode pl [(c ++ c2) ++ rest'.flatten] := ih (c ++ c2)
      _ = transcode pl [c ++ (c2 :: rest').flatten] := by simp [List.append_assoc]

/-- Fundamental theorem of the transcoder: its canonical output is the
per-line processing of the fully terminated lines of the concatenated
upstream byte sequence — the chunking is irrelevant. -/
theorem transcode_eq_feed (pl : Str → List Str) (chunks : List Str) :
    transcode pl chunks = feedLines pl (completedLines chunks.flatten) := by
  cases chunks with
  | nil => simp [transcode, runChunks, completedLines, splitLines, feedLines]
  | cons c rest =>
    rw [transcode_cons_join]
    show feedLines pl (splitLines ([] ++ (c ++ rest.flatten))).1 ++
      runChunks pl (splitLines ([] ++ (c ++ rest.flatten))).2 [] = _
    simp [runChunks, completedLines]

/-- Characterization of the per-line step: a `[DONE]` line forwards the
sentinel, any other line emits exactly the (truthy) delta it carries. -/
theorem processLine_eq (extract : Json → Option Json) (l : Str) :
    processLine extract l =
      if isDoneLine l then [doneEvent]
      else ((lineDelta extract l).map deltaEvent).toList := by
  simp only [processLine, isDoneLine, lineDelta, lineContent, lineData]
  by_cases h1 : (jsTrim l).isEmpty
  · simp [h1]
  · simp only [h1, Bool.false_eq_true, if_false, ite_false]
    by_cases h2 : (chars ("data: ")).isPrefixOf (jsTrim l)
    · simp only [h2, Bool.not_true, Bool.false_eq_true, if_false, ite_false]
      by_cases h3 : (jsTrim l).drop 6 = chars ("[DONE]")
      · simp [h3]
      · simp only [h3, if_false, ite_false]
        cases hp : parseJson ((jsTrim l).drop 6) with
        | none => simp [hp, h3]
        | some parsed =>
          cases he : extract parsed with
          | none => simp [hp, he, h3]
          | some v =>
            by_cases ht : jsTruthy v
            · simp [hp, he, ht, h3]
            · simp [hp, he, ht, h3]
    · simp [h2]

/-- Every canonical delta event starts with `data: ` followed by an
opening brace. -/
theorem deltaEvent_head (v : Json) :
    ∃ t, deltaEvent v = chars ("data: \x7b") ++ t := by
  refine ⟨(stringifyKvs [(chars ("content"), v)] ++ ['\x7d']) ++ chars ("\n\n"), ?_⟩
  show (chars ("data: ") ++ stringifyJson (.obj [(chars ("content"), v)])) ++ chars ("\n\n") = _
  rw [stringifyJson]
  rw [show chars ("data: ") ++ ('\x7b' :: (stringifyKvs [(chars ("content"), v)] ++ ['\x7d'])) =
    chars ("data: \x7b") ++ (stringifyKvs [(chars ("content"), v)] ++ ['\x7d']) from rfl]
  rw [List.append_assoc]

/-- A canonical delta event is never the `[DONE]` sentinel. -/
theorem deltaEvent_ne_done (v : Json) : deltaEvent v ≠ doneEvent := by
  obtain ⟨t, ht⟩ := deltaEvent_head v
  intro h
  rw [ht] at h
  have h7 := congrArg (fun l => l.take 7) h
  simp only [List.take_append_eq_append_take,
    show (chars ("data: \x7b")).length = 7 from rfl, Nat.sub_self, List.take_zero,
    List.append_nil] at h7
  exact absurd h7 (by decide)

/-- A `[DONE]` line never carries a delta. -/
theorem isDoneLine_lineDelta (extract : Json → Option Json) (l : Str)
    (h : isDoneLine l = true) : lineDelta extract l = none := by
  simp only [isDoneLine, decide_eq_true_eq] at h
  simp only [lineDelta, lineContent, h]
  simp

/-- The canonical delta events produced by a batch of lines are exactly the
truthy deltas of those lines, in line order. -/
theorem feedLines_deltas (extract : Json → Option Json) (lines : List Str) :
    (feedLines (processLine extract) lines).filter (fun e => !(e == doneEvent)) =
      (lines.filterMap (lineDelta extract)).map deltaEvent := by
  induction lines with
  | nil => simp [feedLines]
  | cons l ls ih =>
    have hcons : feedLines (processLine extract) (l :: ls) =
        processLine extract l ++ feedLines (processLine extract) ls := by
      simp [feedLines]
    rw [hcons, List.filter_append, ih]
    by_cases hd : isDoneLine l
    · rw [processLine_eq, if_pos hd]
      simp [isDoneLine_lineDelta extract l hd]
    · rw [processLine_eq, if_neg hd]
      cases hδ : lineDelta extract l with
      | none => simp [hδ]
      | some v =>
        simp only [hδ, Option.map_some, Option.toList_some, List.filterMap_cons]
        simp [deltaEvent_ne_done v]

/-- Shape of a canonical event whose delta is a string. -/
theorem deltaEvent_str_shape (s : Str) :
    deltaEvent (.str s) =
      chars ("data: \x7b\"content\":\"") ++ (escapeStr s ++ chars ("\"\x7d\n\n")) := by
  show (chars ("data: ") ++ stringifyJson (.obj [(chars ("content"), .str s)])) ++
    chars ("\n\n") = _
  rw [stringifyJson, stringifyKvs, stringifyJson,
    show escapeStr (chars ("content")) = chars ("content") from rfl]
  simp only [List.cons_append, List.append_assoc, List.singleton_append, List.nil_append]
  rfl

/-- An emitted delta is a truthy extracted content. -/
theorem lineDelta_eq_some (extract : Json → Option Json) (l : Str) (v : Json)
    (h : lineDelta extract l = some v) :
    lineContent extract l = some v ∧ jsTruthy v = true := by
  unfold lineDelta at h
  cases hc : lineContent extract l with
  | none => rw [hc] at h; cases h
  | some w =>
    rw [hc] at h
    have h2 : (if jsTruthy w = true then some w else none) = some v := h
    by_cases ht : jsTruthy w
    · rw [if_pos ht] at h2
      injection h2 with h'
      subst h'
      exact ⟨rfl, ht⟩
    · rw [if_neg ht] at h2; cases h2

/-- A line passing the `data: ` prefix check is nonempty after trimming. -/
theorem jsTrim_nonempty_of_dataline (m : Str)
    (hpre : (chars ("data: ")).isPrefixOf (jsTrim m) = true) :
    (jsTrim m).isEmpty = false := by
  cases h : jsTrim m with
  | nil => rw [h] at hpre; exact absurd hpre (by decide)
  | cons c cs => rfl

/-- A line whose payload fails the prefix, sentinel or JSON checks emits no
canonical event. -/
theorem processLine_malformed (extract : Json → Option Json) (m : Str)
    (hpre : (chars ("data: ")).isPrefixOf (jsTrim m) = true)
    (hnd : (jsTrim m).drop 6 ≠ chars ("[DONE]"))
    (hbad : parseJson ((jsTrim m).drop 6) = none) :
    processLine extract m = [] := by
  simp only [processLine, jsTrim_nonempty_of_dataline m hpre, hpre, hnd, hbad,
    Bool.false_eq_true, if_false, Bool.not_true, ite_false]

/-! ## The claims -/

/-- C2: for every upstream byte sequence and every partition of it into read
chunks, the transcoder produces the same canonical output; in particular
every chunking of the three-frame OpenAI example (deltas `ab`, `cd`, then
`[DONE]`) yields exactly the canonical events
`data: {"content":"ab"}`, `data: {"content":"cd"}`, `data: [DONE]`. -/
theorem transcoder_chunking_invariance :
    (∀ (pl : Str → List Str) (chunks chunks' : List Str),
        chunks.flatten = chunks'.flatten → transcode pl chunks = transcode pl chunks') ∧
    (∀ chunks : List Str, chunks.flatten = exampleStream →
        transcode (processLine openAIDelta) chunks = [eventAB, eventCD, doneEvent]) := by
  constructor
  · intro pl c c' h
    rw [transcode_eq_feed, transcode_eq_feed, h]
  · intro chunks h
    rw [transcode_eq_feed, h]
    rfl

/-- Witness for C2: a three-chunk partition of the example stream with
mid-line splits still yields the canonical output. -/
theorem transcoder_chunking_invariance_witness :
    transcode (processLine openAIDelta)
      [chars ("data: \x7b\"choi"),
       chars ("ces\":[\x7b\"delta\":\x7b\"content\":\"ab\"\x7d\x7d]\x7d\n\ndata: \x7b\"choices\":[\x7b\"delta\":\x7b\"content\":\"cd\"\x7d\x7d]"),
       chars ("\x7d\n\ndata: [DONE]\n\n")] = [eventAB, eventCD, doneEvent] :=
  transcoder_chunking_invariance.2 _ (by rfl)

/-- C7: a line with the `data: ` prefix whose payload is not `[DONE]` and is
not valid JSON contributes no canonical event, raises no error, and the
stream continues: the output is exactly the events of the surrounding
lines. -/
theorem malformed_frame_tolerance (extract : Json → Option Json) (chunks : List Str)
    (L1 : List Str) (m : Str) (L2 : List Str)
    (hsplit : completedLines chunks.flatten = L1 ++ m :: L2)
    (hpre : (chars ("data: ")).isPrefixOf (jsTrim m) = true)
    (hnd : (jsTrim m).drop 6 ≠ chars ("[DONE]"))
    (hbad : parseJson ((jsTrim m).drop 6) = none) :
    transcode (processLine extract) chunks =
      feedLines (processLine extract) L1 ++ feedLines (processLine extract) L2 := by
  rw [transcode_eq_feed, hsplit,
    show L1 ++ m :: L2 = L1 ++ ([m] ++ L2) from rfl,
    feedLines_append, feedLines_append]
  have hm : feedLines (processLine extract) [m] = [] := by
    simp [feedLines, processLine_malformed extract m hpre hnd hbad]
  rw [hm, List.nil_append]

/-- Witness for C7: a `data: {not json` line between the `ab` and `cd`
frames is dropped while both neighbouring frames still appear. -/
theorem malformed_frame_tolerance_witness :
    transcode (processLine openAIDelta) [malformedMidStream] = [eventAB, eventCD] :=
  (malformed_frame_tolerance openAIDelta [malformedMidStream]
    [chars ("data: \x7b\"choices\":[\x7b\"delta\":\x7b\"content\":\"ab\"\x7d\x7d]\x7d")]
    (chars ("data: \x7bnot json"))
    [chars ("data: \x7b\"choices\":[\x7b\"delta\":\x7b\"content\":\"cd\"\x7d\x7d]\x7d"), []]
    (by rfl) (by rfl) (by decide) (by rfl)).trans (by rfl)

/-- C6 (amended): canonical delta events appear in the exact order of the
corresponding upstream deltas; and the `[DONE]` sentinel is the last
canonical event whenever no event-producing data line follows the upstream
`[DONE]` line (the transcoder keeps processing lines after a `[DONE]`
frame, so an upstream delta frame after `[DONE]` would be emitted after the
sentinel). -/
theorem delta_order_and_done_last (extract : Json → Option Json) (chunks : List Str) :
    ((transcode (processLine extract) chunks).filter (fun e => !(e == doneEvent)) =
      ((completedLines chunks.flatten).filterMap (lineDelta extract)).map deltaEvent) ∧
    (∀ (L1 : List Str) (dl : Str) (L2 : List Str),
      completedLines chunks.flatten = L1 ++ dl :: L2 →
      isDoneLine dl = true →
      (∀ l ∈ L2, processLine extract l = []) →
      (transcode (processLine extract) chunks).getLast? = some doneEvent) := by
  constructor
  · rw [transcode_eq_feed]
    exact feedLines_deltas extract _
  · intro L1 dl L2 hsplit hdl hafter
    rw [transcode_eq_feed, hsplit,
      show L1 ++ dl :: L2 = L1 ++ ([dl] ++ L2) from rfl,
      feedLines_append, feedLines_append]
    have h2 : feedLines (processLine extract) L2 = [] := by
      simp only [feedLines, List.flatten_eq_nil_iff]
      intro x hx
      rw [List.mem_map] at hx
      obtain ⟨l, hl, rfl⟩ := hx
      exact hafter l hl
    have h1 : feedLines (processLine extract) [dl] = [doneEvent] := by
      simp [feedLines, processLine_eq, hdl]
    rw [h1, h2, List.append_nil]
    simp

/-- Counterexample for C6 as stated: with an upstream delta frame after the
`[DONE]` frame, the sentinel appears in the canonical output but is not the
last canonical event. -/
theorem done_sentinel_not_last_cex :
    doneEvent ∈ transcode (processLine openAIDelta) [doneThenDeltaStream] ∧
    (transcode (processLine openAIDelta) [doneThenDeltaStream]).getLast? ≠
      some doneEvent := by
  rw [show transcode (processLine openAIDelta) [doneThenDeltaStream] =
    [doneEvent, chars ("data: \x7b\"content\":\"x\"\x7d\n\n")] from rfl]
  refine ⟨by simp, ?_⟩
  rw [show ([doneEvent, chars ("data: \x7b\"content\":\"x\"\x7d\n\n")]).getLast? =
    some (chars ("data: \x7b\"content\":\"x\"\x7d\n\n")) from rfl]
  intro h
  injection h with h'
  exact absurd h' (by decide)

/-- Witness for C6: on the example stream, whose `[DONE]` frame is final,
the sentinel is the last canonical event. -/
theorem delta_order_and_done_last_witness :
    (transcode (processLine openAIDelta) [exampleStream]).getLast? = some doneEvent :=
  (delta_order_and_done_last openAIDelta [exampleStream]).2
    [chars ("data: \x7b\"choices\":[\x7b\"delta\":\x7b\"content\":\"ab\"\x7d\x7d]\x7d"), [],
     chars ("data: \x7b\"choices\":[\x7b\"delta\":\x7b\"content\":\"cd\"\x7d\x7d]\x7d"), []]
    (chars ("data: [DONE]")) [[]]
    (by rfl) (by decide)
    (by intro l hl; rw [List.mem_singleton] at hl; subst hl; rfl)

/-- C10 (amended): provided the upstream delta contents carried by the
stream's lines are strings, every canonical event other than the `[DONE]`
sentinel is `data: {"content": s}` for a non-empty string `s`; and
independently of that hypothesis, a non-`[DONE]` line whose extracted
content is missing or the empty string produces no canonical event at all.
(Unrestricted, the claim fails: a truthy non-string delta such as the JSON
number `5` is serialized as-is, see the counterexample.) -/
theorem canonical_event_shape (extract : Json → Option Json) (chunks : List Str)
    (hstr : ∀ l ∈ completedLines chunks.flatten, ∀ v, lineContent extract l = some v →
      ∃ s : Str, v = Json.str s) :
    (∀ e ∈ transcode (processLine extract) chunks,
        e = doneEvent ∨ ∃ s : Str, s ≠ [] ∧ e = deltaEvent (.str s)) ∧
    (∀ l : Str, isDoneLine l = false →
        (lineContent extract l = none ∨ lineContent extract l = some (Json.str [])) →
        processLine extract l = []) := by
  constructor
  · intro e he
    rw [transcode_eq_feed] at he
    simp only [feedLines, List.mem_flatten, List.mem_map] at he
    obtain ⟨_, ⟨l, hl, rfl⟩, hel⟩ := he
    rw [processLine_eq] at hel
    by_cases hd : isDoneLine l
    · rw [if_pos hd] at hel
      rw [List.mem_singleton] at hel
      exact Or.inl hel
    · rw [if_neg hd] at hel
      cases hδ : lineDelta extract l with
      | none => rw [hδ] at hel; cases hel
      | some v =>
        rw [hδ] at hel
        simp only [Option.map_some', Option.toList_some, List.mem_singleton] at hel
        obtain ⟨hc, ht⟩ := lineDelta_eq_some extract l v hδ
        obtain ⟨s, rfl⟩ := hstr l hl v hc
        refine Or.inr ⟨s, ?_, hel⟩
        intro hs
        subst hs
        exact absurd ht (by decide)
  · intro l hd hc
    rw [processLine_eq, if_neg (by simp [hd])]
    have : lineDelta extract l = none := by
      unfold lineDelta
      rcases hc with h | h <;> rw [h]
      rfl
    rw [this]
    rfl

/-- Counterexample for C10 as stated: an upstream delta whose `content` is
the JSON number `5` is truthy, so the transcoder emits the canonical event
`data: {"content":5}`, which is not `data: {"content": s}` for any string
`s`. -/
theorem numeric_content_cex :
    transcode (processLine openAIDelta) [numericContentStream] = [numericContentEvent] ∧
    numericContentEvent ≠ doneEvent ∧
    ∀ s : Str, deltaEvent (.str s) ≠ numericContentEvent := by
  refine ⟨rfl, by decide, ?_⟩
  intro s h
  rw [deltaEvent_str_shape] at h
  have h18 := congrArg (fun l => l.take 18) h
  simp only [List.take_append_eq_append_take,
    show (chars ("data: \x7b\"content\":\"")).length = 18 from rfl, Nat.sub_self,
    Nat.zero_sub, List.take_zero, List.append_nil, List.nil_append] at h18
  exact absurd h18 (by decide)

/-- Witness for C10: on the example stream, whose delta contents are the
strings `ab` and `cd`, the concrete emitted event `data: {"content":"ab"}`
is a non-empty string content event. -/
theorem canonical_event_shape_witness :
    eventAB = doneEvent ∨ ∃ s : Str, s ≠ [] ∧ eventAB = deltaEvent (.str s) :=
  (canonical_event_shape openAIDelta [exampleStream] (by
    intro l hl v hv
    rw [show completedLines ([exampleStream].flatten) =
      [chars ("data: \x7b\"choices\":[\x7b\"delta\":\x7b\"content\":\"ab\"\x7d\x7d]\x7d"), [],
       chars ("data: \x7b\"choices\":[\x7b\"delta\":\x7b\"content\":\"cd\"\x7d\x7d]\x7d"), [],
       chars ("data: [DONE]"), []] from rfl] at hl
    simp only [List.mem_cons, List.not_mem_nil, or_false] at hl
    rcases hl with rfl | rfl | rfl | rfl | rfl | rfl
    · rw [show lineContent openAIDelta
        (chars ("data: \x7b\"choices\":[\x7b\"delta\":\x7b\"content\":\"ab\"\x7d\x7d]\x7d")) =
          some (Json.str (chars ("ab"))) from rfl] at hv
      exact ⟨chars ("ab"), (Option.some.inj hv).symm⟩
    · rw [show lineContent openAIDelta [] = none from rfl] at hv
      exact Option.noConfusion hv
    · rw [show lineContent openAIDelta
        (chars ("data: \x7b\"choices\":[\x7b\"delta\":\x7b\"content\":\"cd\"\x7d\x7d]\x7d")) =
          some (Json.str (chars ("cd"))) from rfl] at hv
      exact ⟨chars ("cd"), (Option.some.inj hv).symm⟩
    · rw [show lineContent openAIDelta [] = none from rfl] at hv
      exact Option.noConfusion hv
    · rw [show lineContent openAIDelta (chars ("data: [DONE]")) = none from rfl] at hv
      exact Option.noConfusion hv
    · rw [show lineContent openAIDelta [] = none from rfl] at hv
      exact Option.noConfusion hv)).1 eventAB (by
    rw [show transcode (processLine openAIDelta) [exampleStream] =
      [eventAB, eventCD, doneEvent] from rfl]
    exact List.mem_cons_self _ _)

/-- C3 (amended): an absent override, or one whose `apiKey` is absent or
empty, resolves to the server defaults exactly; a usable override takes its
`apiKey` from the override only, while `provider`, `baseUrl` and `modelId`
each fall back to the server default exactly when the override's field is
absent or empty (JS falsiness; a present-but-empty field also falls back,
see the counterexample); in particular an override of `{apiKey:"k"}` alone
yields the server defaults with the key replaced. -/
theorem env_override_precedence (env : EffectiveEnv) (llmConfig : Option LLMConfig) :
    (llmConfig = none → createEffectiveEnv env llmConfig = env) ∧
    (∀ cfg, llmConfig = some cfg → truthyS cfg.apiKey = false →
      createEffectiveEnv env llmConfig = env) ∧
    (∀ cfg, llmConfig = some cfg → truthyS cfg.apiKey = true →
      (createEffectiveEnv env llmConfig).AI_API_KEY = cfg.apiKey.getD [] ∧
      (createEffectiveEnv env llmConfig).AI_PROVIDER =
        (if truthyS cfg.provider then cfg.provider.getD [] else env.AI_PROVIDER) ∧
      (createEffectiveEnv env llmConfig).AI_BASE_URL =
        (if truthyS cfg.baseUrl then cfg.baseUrl.getD [] else env.AI_BASE_URL) ∧
      (createEffectiveEnv env llmConfig).AI_MODEL_ID =
        (if truthyS cfg.modelId then cfg.modelId.getD [] else env.AI_MODEL_ID)) ∧
    (∀ k : Str, k ≠ [] →
      createEffectiveEnv env (some ⟨none, none, some k, none⟩) =
        { env with AI_API_KEY := k }) := by
  refine ⟨?_, ?_, ?_, ?_⟩
  · intro h; subst h; rfl
  · intro cfg h hk; subst h
    simp [createEffectiveEnv, hk]
  · intro cfg h hk; subst h
    simp [createEffectiveEnv, hk, strOr]
  · intro k hk
    cases k with
    | nil => exact absurd rfl hk
    | cons c cs => rfl

/-- Counterexample for C3 as stated: an override whose `provider` is present
but empty still falls back to the server default (`"openai"` instead of the
override's `""`), so the fallback is not "exactly when absent". -/
theorem env_override_empty_provider_cex :
    (createEffectiveEnv serverEnvEx (some emptyProviderOverride)).AI_PROVIDER =
      chars ("openai") ∧
    emptyProviderOverride.provider = some [] ∧
    chars ("openai") ≠ ([] : Str) :=
  ⟨rfl, rfl, by decide⟩

/-- Witness for C3: the override `{apiKey:"k"}` alone yields the server
defaults with only the key replaced. -/
theorem env_override_precedence_witness :
    createEffectiveEnv serverEnvEx (some ⟨none, none, some (chars ("k")), none⟩) =
      { serverEnvEx with AI_API_KEY := chars ("k") } :=
  (env_override_precedence serverEnvEx
    (some ⟨none, none, some (chars ("k")), none⟩)).2.2.2 (chars ("k")) (by decide)

/-- C4: on every handled chat request the surfaced `X-Quota-Exempt` value is
the OR of the password-based exemption and the presence of a client
override carrying an API key; each signal alone suffices. -/
theorem quota_exemption_or (password cfgPassword : Option Str)
    (llmConfig : Option LLMConfig)
    (hvalid : (validateAccessPassword password cfgPassword).valid = true) :
    (chatQuotaHeader password cfgPassword llmConfig =
      some (quotaExemptValue ((validateAccessPassword password cfgPassword).exempt ||
        hasCustomLLM llmConfig))) ∧
    ((validateAccessPassword password cfgPassword).exempt = true →
      chatQuotaHeader password cfgPassword llmConfig = some (chars ("true"))) ∧
    (hasCustomLLM llmConfig = true →
      chatQuotaHeader password cfgPassword llmConfig = some (chars ("true"))) ∧
    (chatQuotaHeader password cfgPassword llmConfig = some (chars ("true")) ↔
      ((validateAccessPassword password cfgPassword).exempt = true ∨
        hasCustomLLM llmConfig = true)) := by
  refine ⟨?_, ?_, ?_, ?_⟩
  · simp [chatQuotaHeader, hvalid, effectiveExempt]
  · intro h
    simp [chatQuotaHeader, hvalid, effectiveExempt, h, quotaExemptValue]
  · intro h
    simp [chatQuotaHeader, hvalid, effectiveExempt, h, quotaExemptValue]
  · cases hE : (validateAccessPassword password cfgPassword).exempt <;>
      cases hC : hasCustomLLM llmConfig <;>
      simp [chatQuotaHeader, hvalid, effectiveExempt, hE, hC, quotaExemptValue,
        show chars ("false") ≠ chars ("true") from by decide]

/-- Witness for C4: with no configured password (no password exemption) a
client override carrying an API key alone makes the request exempt. -/
theorem quota_exemption_or_witness :
    chatQuotaHeader none none (some ⟨none, none, some (chars ("k")), none⟩) =
      some (chars ("true")) :=
  (quota_exemption_or none none (some ⟨none, none, some (chars ("k")), none⟩)
    (by rfl)).2.2.1 (by rfl)

/-- C5: a `data:image/png;base64,AAAA` image part becomes an Anthropic
base64 image part with `media_type="image/png"` and `data="AAAA"`; any
non-empty image URL that fails the `data:<mime>;base64,<payload>` pattern
(bare remote URLs included) degrades to a text part naming the URL instead
of failing. -/
theorem image_part_conversion :
    (convertContentPartsToAnthropic
      [⟨chars ("image_url"), none, some (chars ("data:image/png;base64,AAAA"))⟩] =
      [.image (chars ("image/png")) (chars ("AAAA"))]) ∧
    (∀ url : Str, url ≠ [] → dataImageMatch url = none →
      convertContentPartsToAnthropic [⟨chars ("image_url"), none, some url⟩] =
        [.text (chars ("[Image URL: ") ++ url ++ chars ("]"))]) := by
  constructor
  · rfl
  · intro url hne hbad
    have hu : truthyS (some url) = true := by
      cases url with
      | nil => exact absurd rfl hne
      | cons c cs => rfl
    have hone : convertOnePart ⟨chars ("image_url"), none, some url⟩ =
        .text (chars ("[Image URL: ") ++ url ++ chars ("]")) := by
      unfold convertOnePart
      rw [if_neg (show ¬(chars ("image_url") = chars ("text")) by decide)]
      rw [if_pos (show chars ("image_url") = chars ("image_url") ∧
        truthyS (some url) = true from ⟨rfl, hu⟩)]
      change (if (chars ("data:")).isPrefixOf url = true then _ else _) = _
      by_cases hp : (chars ("data:")).isPrefixOf url = true
      · rw [if_pos hp]
        change (match dataImageMatch url with
          | some m => AnthropicContentPart.image m.1 m.2
          | none => AnthropicContentPart.text (chars ("[Image URL: ") ++ url ++
              chars ("]"))) = _
        rw [hbad]
      · rw [if_neg hp]
        rfl
    have hkeep : keepPart (.text (chars ("[Image URL: ") ++ url ++ chars ("]"))) =
        true := rfl
    have hfil : convertContentPartsToAnthropic [⟨chars ("image_url"), none, some url⟩] =
        List.filter keepPart
          [AnthropicContentPart.text (chars ("[Image URL: ") ++ url ++ chars ("]"))] := by
      simp only [convertContentPartsToAnthropic, List.map_cons, List.map_nil, hone]
    rw [hfil, List.filter_cons, hkeep]
    simp

/-- Witness for C5: a bare remote URL becomes a text part naming it. -/
theorem image_part_conversion_witness :
    convertContentPartsToAnthropic
      [⟨chars ("image_url"), none, some (chars ("https://example.com/cat.png"))⟩] =
      [.text (chars ("[Image URL: ") ++ chars ("https://example.com/cat.png") ++
        chars ("]"))] :=
  image_part_conversion.2 (chars ("https://example.com/cat.png")) (by decide) (by rfl)

/-- C8: for a message list whose single system message leads (with string
content), that message becomes the top-level `system` string and the
remaining messages, in order, become the `messages` array; with no system
message at all, the whole list, in order, becomes the `messages` array. -/
theorem anthropic_system_split (messages : List PayloadMessage) :
    (∀ (m0 : PayloadMessage) (rest : List PayloadMessage) (s : Str),
      messages = m0 :: rest → m0.role = chars ("system") → m0.content = .str s →
      (∀ m ∈ rest, m.role ≠ chars ("system")) →
      anthropicSystemOf messages = s ∧
      anthropicMessagesOf messages = rest.map toAnthropicMessage) ∧
    ((∀ m ∈ messages, m.role ≠ chars ("system")) →
      anthropicSystemOf messages = [] ∧
      anthropicMessagesOf messages = messages.map toAnthropicMessage) := by
  constructor
  · intro m0 rest s hm hrole hcontent hrest
    subst hm
    constructor
    · rw [anthropicSystemOf, findSystem,
        List.find?_cons_of_pos _ (by simp [hrole])]
      change (match m0.content with
        | MsgContent.str s => s
        | MsgContent.parts ps => ([] : Str)) = s
      rw [hcontent]
    · rw [anthropicMessagesOf, nonSystemMessages,
        List.filter_cons_of_neg (by simp [hrole])]
      congr 1
      rw [List.filter_eq_self]
      intro m hm
      simp [hrest m hm]
  · intro hall
    constructor
    · rw [anthropicSystemOf, findSystem, List.find?_eq_none.mpr]
      intro m hm
      simp [hall m hm]
    · rw [anthropicMessagesOf, nonSystemMessages, List.filter_eq_self.mpr]
      intro m hm
      simp [hall m hm]

/-- Witness for C8: a concrete list with a leading system message. -/
theorem anthropic_system_split_witness :
    anthropicSystemOf
      [⟨chars ("system"), .str (chars ("be helpful"))⟩,
       ⟨chars ("user"), .str (chars ("draw a cat"))⟩] = chars ("be helpful") ∧
    anthropicMessagesOf
      [⟨chars ("system"), .str (chars ("be helpful"))⟩,
       ⟨chars ("user"), .str (chars ("draw a cat"))⟩] =
      [(chars ("user"), .str (chars ("draw a cat")))] :=
  (anthropic_system_split
    [⟨chars ("system"), .str (chars ("be helpful"))⟩,
     ⟨chars ("user"), .str (chars ("draw a cat"))⟩]).1
    ⟨chars ("system"), .str (chars ("be helpful"))⟩
    [⟨chars ("user"), .str (chars ("draw a cat"))⟩]
    (chars ("be helpful")) rfl rfl rfl
    (by intro m hm; rw [List.mem_singleton] at hm; subst hm; decide)

/-- C9: every retained part of `convertContentPartsToAnthropic` is a base64
image part or a text part with non-empty text; a part carrying neither
truthy text (when of type `text`) nor a truthy image URL (when of type
`image_url`) contributes nothing to the output. -/
theorem content_part_retention (parts : List ContentPart) :
    (∀ q ∈ convertContentPartsToAnthropic parts,
      (∃ mt d, q = .image mt d) ∨ (∃ t, t ≠ [] ∧ q = .text t)) ∧
    (∀ (p : ContentPart) (l1 l2 : List ContentPart),
      ¬(p.ptype = chars ("text") ∧ truthyS p.text = true) →
      ¬(p.ptype = chars ("image_url") ∧ truthyS p.image_url = true) →
      convertContentPartsToAnthropic (l1 ++ p :: l2) =
        convertContentPartsToAnthropic (l1 ++ l2)) := by
  constructor
  · intro q hq
    rw [convertContentPartsToAnthropic, List.mem_filter] at hq
    cases q with
    | image mt d => exact Or.inl ⟨mt, d, rfl⟩
    | text t =>
      refine Or.inr ⟨t, ?_, rfl⟩
      have := hq.2
      simp only [keepPart, Bool.not_eq_true'] at this
      intro hnil
      subst hnil
      exact absurd this (by decide)
  · intro p l1 l2 h1 h2
    have hdrop : convertOnePart p = .text [] := by
      unfold convertOnePart
      by_cases ht : p.ptype = chars ("text")
      · rw [if_pos ht]
        have : truthyS p.text = false := by
          cases hb : truthyS p.text
          · rfl
          · exact absurd ⟨ht, hb⟩ h1
        cases hx : p.text with
        | none => rfl
        | some s =>
          rw [hx] at this
          cases s with
          | nil => rfl
          | cons c cs =>
            exact Bool.noConfusion
              ((show truthyS (some (c :: cs)) = true from rfl).symm.trans this)
      · rw [if_neg ht, if_neg (fun hc => h2 ⟨hc.1, hc.2⟩)]
    have hkeep : keepPart (AnthropicContentPart.text []) = false := rfl
    simp only [convertContentPartsToAnthropic, List.map_append, List.map_cons,
      List.filter_append, List.filter_cons, hdrop, hkeep]
    simp

/-- Witness for C9: an unknown-type part is dropped between two retained
parts. -/
theorem content_part_retention_witness :
    convertContentPartsToAnthropic
      [⟨chars ("text"), some (chars ("hello")), none⟩,
       ⟨chars ("junk"), none, none⟩,
       ⟨chars ("text"), some (chars ("world")), none⟩] =
      convertContentPartsToAnthropic
        [⟨chars ("text"), some (chars ("hello")), none⟩,
         ⟨chars ("text"), some (chars ("world")), none⟩] :=
  (content_part_retention []).2 ⟨chars ("junk"), none, none⟩
    [⟨chars ("text"), some (chars ("hello")), none⟩]
    [⟨chars ("text"), some (chars ("world")), none⟩]
    (by intro h; exact absurd h.1 (by decide))
    (by intro h; exact absurd h.1 (by decide))

/-- With an always-invalid validator the loop performs exactly `fuel`
attempts. -/
theorem autoFixLoop_length_of_never (ai : Nat → List PayloadMessage → Str)
    (validate : Nat → Str → VResult) (sysP : Str)
    (h : ∀ n c, (validate n c).valid = false) :
    ∀ fuel att code err,
      (autoFixLoop ai validate sysP fuel att code err).2.length = fuel := by
  intro fuel
  induction fuel with
  | zero => intro att code err; rfl
  | succ n ih =>
    intro att code err
    simp only [autoFixLoop, h, Bool.false_eq_true, if_false, List.length_cons]
    rw [ih]

/-- The loop's trace satisfies the prompt-embedding chain. -/
theorem autoFixLoop_promptChain (ai : Nat → List PayloadMessage → Str)
    (validate : Nat → Str → VResult) (sysP : Str) :
    ∀ fuel att code err,
      promptChain err code (autoFixLoop ai validate sysP fuel att code err).2 := by
  intro fuel
  induction fuel with
  | zero => intro att code err; trivial
  | succ n ih =>
    intro att code err
    by_cases hv : (validate (att + 1) (ai (att + 1)
        [⟨chars ("system"), .str sysP⟩,
         ⟨chars ("user"), .str (fixPromptOf err code)⟩])).valid = true
    · simp only [autoFixLoop, hv, if_true]
      exact ⟨rfl, trivial⟩
    · simp only [autoFixLoop, hv, if_false]
      exact ⟨rfl, ih _ _ _⟩

/-- With a validator that is invalid on attempts before `k` and valid on
attempt `k`, the loop performs exactly `k - att` further attempts and
returns the code of attempt `k`. -/
theorem autoFixLoop_stops (ai : Nat → List PayloadMessage → Str)
    (validate : Nat → Str → VResult) (sysP : Str) (k : Nat)
    (hlt : ∀ j c, 1 ≤ j → j < k → (validate j c).valid = false)
    (hvk : ∀ c, (validate k c).valid = true) :
    ∀ fuel att code err, att < k → k ≤ att + fuel →
      (autoFixLoop ai validate sysP fuel att code err).2.length = k - att ∧
      ∃ rec,
        (autoFixLoop ai validate sysP fuel att code err).2.getLast? = some rec ∧
        rec.idx = k ∧
        (autoFixLoop ai validate sysP fuel att code err).1 = rec.code ∧
        rec.res.valid = true := by
  intro fuel
  induction fuel with
  | zero => intro att code err h1 h2; omega
  | succ n ih =>
    intro att code err hak hka
    by_cases hk1 : att + 1 = k
    · have hv : (validate (att + 1) (ai (att + 1)
          [⟨chars ("system"), .str sysP⟩,
           ⟨chars ("user"), .str (fixPromptOf err code)⟩])).valid = true := by
        rw [hk1]; exact hvk _
      simp only [autoFixLoop, hv, if_true]
      refine ⟨by simpa using (by omega : 1 = k - att), ?_⟩
      exact ⟨_, rfl, hk1, rfl, hv⟩
    · have hv : (validate (att + 1) (ai (att + 1)
          [⟨chars ("system"), .str sysP⟩,
           ⟨chars ("user"), .str (fixPromptOf err code)⟩])).valid = false :=
        hlt (att + 1) _ (by omega) (by omega)
      simp only [autoFixLoop, hv, Bool.false_eq_true, if_false]
      obtain ⟨hlen, rec, hlast, hidx, hcode, hvalid⟩ :=
        ih (att + 1) (ai (att + 1)
          [⟨chars ("system"), .str sysP⟩,
           ⟨chars ("user"), .str (fixPromptOf err code)⟩])
          (errOr (validate (att + 1) (ai (att + 1)
            [⟨chars ("system"), .str sysP⟩,
             ⟨chars ("user"), .str (fixPromptOf err code)⟩])).error)
          (by omega) (by omega)
      refine ⟨by simp only [List.length_cons, hlen]; omega, rec, ?_, hidx, hcode, hvalid⟩
      have hne : (autoFixLoop ai validate sysP n (att + 1)
          (ai (att + 1)
            [⟨chars ("system"), .str sysP⟩,
             ⟨chars ("user"), .str (fixPromptOf err code)⟩])
          (errOr (validate (att + 1) (ai (att + 1)
            [⟨chars ("system"), .str sysP⟩,
             ⟨chars ("user"), .str (fixPromptOf err code)⟩])).error)).2 ≠ [] := by
        intro hnil
        rw [hnil] at hlen
        simp at hlen
        omega
      rw [List.getLast?_cons, ← hlast]
      cases hc : (autoFixLoop ai validate sysP n (att + 1)
          (ai (att + 1)
            [⟨chars ("system"), .str sysP⟩,
             ⟨chars ("user"), .str (fixPromptOf err code)⟩])
          (errOr (validate (att + 1) (ai (att + 1)
            [⟨chars ("system"), .str sysP⟩,
             ⟨chars ("user"), .str (fixPromptOf err code)⟩])).error)).2 with
      | nil => exact absurd hc hne
      | cons b bs => simp [List.getLast?_cons]

/-- C1: the Mermaid auto-fix loop is entered only when the engine is
`mermaid` and initial validation failed; an always-invalid validator yields
exactly `MAX_MERMAID_FIX_ATTEMPTS = 3` attempts and a terminal error; each
attempt's fix prompt embeds the previous invalid code and that code's
validator error; a validator valid on attempt `k ≤ 3` stops the loop at
attempt `k`, which returns that attempt's code. -/
theorem mermaid_selfheal_loop (ai : Nat → List PayloadMessage → Str)
    (validate : Nat → Str → VResult) (sysP engineType code : Str) :
    ((validate 0 code).valid = true →
      generateValidationPhase ai validate sysP engineType code = (.ok code, [])) ∧
    (engineType ≠ chars ("mermaid") →
      (generateValidationPhase ai validate sysP engineType code).2 = []) ∧
    (engineType = chars ("mermaid") → (∀ n c, (validate n c).valid = false) →
      (generateValidationPhase ai validate sysP engineType code).2.length = 3 ∧
      ∃ msg, (generateValidationPhase ai validate sysP engineType code).1 =
        .error msg) ∧
    (∀ failedCode errorMessage : Str,
      promptChain errorMessage failedCode
        (attemptMermaidAutoFix ai validate sysP failedCode errorMessage).2) ∧
    (∀ (k : Nat) (failedCode errorMessage : Str), 1 ≤ k → k ≤ 3 →
      (∀ j c, 1 ≤ j → j < k → (validate j c).valid = false) →
      (∀ c, (validate k c).valid = true) →
      (attemptMermaidAutoFix ai validate sysP failedCode errorMessage).2.length = k ∧
      ∃ rec,
        (attemptMermaidAutoFix ai validate sysP failedCode errorMessage).2.getLast? =
          some rec ∧ rec.idx = k ∧
        (attemptMermaidAutoFix ai validate sysP failedCode errorMessage).1 =
          rec.code ∧
        rec.res.valid = true) := by
  refine ⟨?_, ?_, ?_, ?_, ?_⟩
  · intro h
    simp [generateValidationPhase, h]
  · intro hne
    simp only [generateValidationPhase]
    rw [if_neg (fun hc => hne hc.2)]
    split
    · rfl
    · rfl
  · intro hm hall
    subst hm
    simp only [generateValidationPhase]
    rw [if_pos ⟨by simp [hall 0 code], by trivial⟩]
    rw [if_neg (by simp [hall])]
    exact ⟨autoFixLoop_length_of_never ai validate sysP hall _ _ _ _, _, rfl⟩
  · intro failedCode errorMessage
    exact autoFixLoop_promptChain ai validate sysP _ _ _ _
  · intro k failedCode errorMessage hk1 hk3 hlt hvk
    have := autoFixLoop_stops ai validate sysP k hlt hvk
      MAX_MERMAID_FIX_ATTEMPTS 0 failedCode errorMessage (by omega)
      (by simp [MAX_MERMAID_FIX_ATTEMPTS]; omega)
    simpa [attemptMermaidAutoFix] using this

/-- Witness for C1: with a concrete validator that is valid exactly on its
second call, the loop stops after attempt 2 and returns attempt 2's code. -/
theorem mermaid_selfheal_loop_witness :
    (attemptMermaidAutoFix aiFixW validAtTwo (chars ("sys")) (chars ("c0"))
      (chars ("e0"))).2.length = 2 ∧
    ∃ rec,
      (attemptMermaidAutoFix aiFixW validAtTwo (chars ("sys")) (chars ("c0"))
        (chars ("e0"))).2.getLast? = some rec ∧ rec.idx = 2 ∧
      (attemptMermaidAutoFix aiFixW validAtTwo (chars ("sys")) (chars ("c0"))
        (chars ("e0"))).1 = rec.code ∧
      rec.res.valid = true :=
  (mermaid_selfheal_loop aiFixW validAtTwo (chars ("sys")) (chars ("mermaid"))
    (chars ("c0"))).2.2.2.2 2 (chars ("c0")) (chars ("e0")) (by decide) (by decide)
    (by intro j c h1 h2
        have hj : j = 1 := by omega
        subst hj
        rfl)
    (by intro c; rfl)

end Spec2
